import Mathlib

/-!
Verification development for the axios-http-mock stub registry and matching
engine.  The TypeScript sources are shallowly embedded: mutable objects become
records threaded explicitly, thrown errors become `Except.error`, and the
registry object becomes a total function from HTTP methods to lists of stub
definitions.  Attribute values (headers / query params / body) are modelled as
scalars or flat string-keyed mappings of scalars.  The matcher compares them
with legacy `assert.deepEqual`, whose leaf comparison is JavaScript loose
equality (`==`), and guards them with JavaScript truthiness (`!x`), both of
which are modelled explicitly; the specification's structural deep equality
is stated separately for comparison.
-/

/-- Scalar attribute values (strings, numbers, booleans), as occur in headers
and params records and JSON bodies. -/
inductive JScalar where
  | s : String → JScalar
  | n : Int → JScalar
  | b : Bool → JScalar
deriving DecidableEq, Repr

/-- An attribute value: a scalar, or a flat string-keyed mapping of scalars
(the shape of `Headers`, `Params` and the JSON bodies exercised here). -/
inductive JVal where
  | scalar : JScalar → JVal
  | obj : List (String × JScalar) → JVal
deriving DecidableEq, Repr

/-- Decimal value of a digit string. -/
def digitsVal (cs : List Char) : Nat :=
  cs.foldl (fun n c => 10 * n + (c.toNat - 48)) 0

/-- JavaScript `Number()` coercion on the string fragment this model covers:
the empty string is 0, optional-minus decimal integer literals have their
value, anything else is NaN (`none`), which is loosely equal to nothing.
(Fractional, hex or padded numeric strings are outside the integer value
domain modelled here.) -/
def strToNum? (s : String) : Option Int :=
  match s.data with
  | [] => some 0
  | '-' :: rest =>
      if rest ≠ [] && rest.all Char.isDigit then
        some (-(Int.ofNat (digitsVal rest)))
      else none
  | cs =>
      if cs.all Char.isDigit then some (Int.ofNat (digitsVal cs)) else none

/-- JavaScript numeric coercion of a primitive (`Number(x)`); booleans
coerce to 0 or 1. -/
def JScalar.toNum? : JScalar → Option Int
  | .n x => some x
  | .b x => some (if x then 1 else 0)
  | .s x => strToNum? x

/-- JavaScript loose equality `==` between primitives, as legacy
`assert.deepEqual` compares leaves: same-type comparisons are plain
equality, mixed types are compared after numeric coercion (so `1 == "1"`
holds and NaN equals nothing). -/
def JScalar.looseEq : JScalar → JScalar → Bool
  | .s a, .s c => a == c
  | .n a, .n c => a == c
  | .b a, .b c => a == c
  | a, c =>
      match a.toNum?, c.toNum? with
      | some x, some y => x == y
      | _, _ => false

/-- Deep equality as the legacy `assert.deepEqual` used by
`request-matcher.ts`'s `eq` behaves on this value domain: key-order
independent, object keys must correspond exactly (property names), and leaf
values are compared with JavaScript loose equality. -/
def JVal.deepEqual : JVal → JVal → Bool
  | .scalar a, .scalar c => a.looseEq c
  | .obj a, .obj c =>
      a.length == c.length &&
      a.all (fun p => c.any (fun q => q.1 == p.1 && q.2.looseEq p.2))
  | _, _ => false

/-- JavaScript truthiness of an attribute value: objects are always truthy;
0, the empty string and false are falsy. -/
def JVal.truthy : JVal → Bool
  | .scalar (.s s) => s ≠ ""
  | .scalar (.n n) => n ≠ 0
  | .scalar (.b b) => b
  | .obj _ => true

/-- Truthiness of a possibly-absent value: `undefined` is falsy. -/
def truthyOpt : Option JVal → Bool
  | none => false
  | some v => v.truthy

/-- The specification's own notion of deep equality (structural, recursive,
key-order-independent, spec section 4.3), stated so the code's loose
`JVal.deepEqual` can be compared against it. -/
def JVal.structEqual : JVal → JVal → Bool
  | .scalar a, .scalar c => a == c
  | .obj a, .obj c =>
      a.length == c.length &&
      a.all (fun p => c.any (fun q => q.1 == p.1 && q.2 == p.2))
  | _, _ => false

/-- The spec's deep equality on optional values (absent equals absent). -/
def structEqOpt : Option JVal → Option JVal → Bool
  | none, none => true
  | some a, some c => a.structEqual c
  | _, _ => false

/-- The HTTP method set from `types.ts`. -/
inductive Method where
  | get | post | put | delete | head | link | options | patch | purge | unlink
deriving DecidableEq, Repr

/-- The registry's verb keys in the insertion order of the object literal in
`HttpMock`'s constructor (the order `Object.values(this.registry)` yields). -/
def methodKeys : List Method :=
  [.get, .post, .put, .delete, .head, .link, .options, .patch, .purge, .unlink]

/-- `MatchMode` from `types.ts`: `"strict" | "partial"`.  The second mode is
named `loose` here because its source name is a reserved word in Lean. -/
inductive MatchMode where
  | strict | loose
deriving DecidableEq, Repr

/-- `RequestOptions` from `types.ts`: each of params / body / headers is
independently optional. -/
structure RequestOptions where
  params : Option JVal := none
  body : Option JVal := none
  headers : Option JVal := none
deriving DecidableEq, Repr

/-- The `Response` shape built by `Request#respondWith`. -/
structure Response where
  status : Nat
  statusText : String
  data : Option JVal
  headers : List (String × String)
deriving DecidableEq, Repr

/-- A stub definition: the `Request` class from `request.ts`.  `uri?` is the
`_uri` field, `response?` is `_response`, `exception` holds the message of the
stored `Error` (set by `timeout()`). -/
structure Request where
  method : Method
  uri? : Option String := none
  options : RequestOptions := {}
  exception : Option String := none
  response? : Option Response := none
  invocationCount : Nat := 0
  maxInvocationCount : Option Nat := none
deriving DecidableEq, Repr

/-- `get uri()` on `Request`. -/
def Request.uri (r : Request) : Option String := r.uri?

/-- `get headers()` on `Request` (`this.options?.headers`). -/
def Request.headers (r : Request) : Option JVal := r.options.headers

/-- `get params()` on `Request`. -/
def Request.params (r : Request) : Option JVal := r.options.params

/-- `get body()` on `Request`. -/
def Request.body (r : Request) : Option JVal := r.options.body

/-- `to(uri)` on `Request`. -/
def Request.to (r : Request) (uri : String) : Request :=
  { r with uri? := some uri }

/-- `with(options)` on `Request` (`{...this.options, ...options}`): fields
present in the argument override, the rest are kept. -/
def Request.withOpts (r : Request) (o : RequestOptions) : Request :=
  { r with options :=
      { params := o.params.elim r.options.params some
        body := o.body.elim r.options.body some
        headers := o.headers.elim r.options.headers some } }

/-- `once()` on `Request`. -/
def Request.once (r : Request) : Request :=
  { r with maxInvocationCount := some 1 }

/-- `timeout()` on `Request`: stores `new Error("Timeout")`. -/
def Request.timeout (r : Request) : Request :=
  { r with exception := some "Timeout" }

/-- Status texts of the external `http-status` package (modelled for the codes
appearing in this development; the engine never inspects this field). -/
def httpStatusText (status : Nat) : String :=
  if status == 200 then "OK" else if status == 201 then "Created" else ""

/-- The `ReplayableResponse` argument of `respondWith`: a bare payload or a
payload with headers. -/
inductive ReplayableResponse where
  | plain : JVal → ReplayableResponse
  | withHeaders : JVal → List (String × String) → ReplayableResponse
deriving DecidableEq, Repr

/-- `respondWith(status, response?)` on `Request`. -/
def Request.respondWith (r : Request) (status : Nat)
    (response : Option ReplayableResponse) : Request :=
  let dataHeaders : Option JVal × List (String × String) :=
    match response with
    | none => (none, [])
    | some (.plain v) => (some v, [])
    | some (.withHeaders v hs) => (some v, hs)
  let resp : Response :=
    { status := status
      statusText := httpStatusText status
      data := dataHeaders.1
      headers := dataHeaders.2 }
  { r with response? := some resp }

/-- `isInvokable()` on `Request`, translated with JavaScript truthiness:
`!this.maxInvocationCount` is true when the limit is `undefined` or `0`. -/
def Request.isInvokable (r : Request) : Bool :=
  match r.maxInvocationCount with
  | none => true
  | some m => m == 0 || r.invocationCount < m

/-- JavaScript `!!` on `string | undefined`: the empty string is falsy. -/
def truthyStr : Option String → Bool
  | none => false
  | some s => s ≠ ""

/-- `isValid()` on `Request`:
`!!this.uri && (!!this._response || !!this.exception)`. -/
def Request.isValid (r : Request) : Bool :=
  truthyStr r.uri? && (r.response?.isSome || r.exception.isSome)

/-- Engine-level errors (`errors.ts` plus the `Error` thrown by the
materializer for a configured timeout, which the adapter boundary surfaces as
a connectivity failure). -/
inductive MockError where
  | invalidRequests : List Request → MockError
  | requestNotFound : MockError
  | connectivityFailure : String → MockError
  | unconfiguredResponse : Method → Option String → MockError
deriving DecidableEq, Repr

/-- `get response()` on `Request`, the outcome materializer: increments
`invocationCount` first, then raises the stored exception, raises
`UnconfiguredResponseError` when no response is configured, or returns the
configured response.  The updated definition is returned alongside. -/
def Request.materialize (r : Request) : Except MockError Response × Request :=
  let r' := { r with invocationCount := r.invocationCount + 1 }
  match r.exception with
  | some msg => (Except.error (MockError.connectivityFailure msg), r')
  | none =>
    match r.response? with
    | some resp => (Except.ok resp, r')
    | none => (Except.error (MockError.unconfiguredResponse r.method r.uri?), r')

/-- `eq` from `request-matcher.ts` lifted to optional values:
`assert.deepEqual` passes on `(undefined, undefined)` and fails between
`undefined` and an object. -/
def eqOpt : Option JVal → Option JVal → Bool
  | none, none => true
  | some a, some c => a.deepEqual c
  | _, _ => false

/-- `ok` from `request-matcher.ts`: the guard `!expected || !actual` is
JavaScript truthiness, so an absent or falsy side auto-passes; otherwise deep
(loose) equality decides. -/
def okOpt (expected actual : Option JVal) : Bool :=
  if !truthyOpt expected || !truthyOpt actual then true
  else eqOpt expected actual

/-- `score` from `request-matcher.ts`: the multiplier is 2 only when both
sides are truthy (`if (expected && actual)`), times 1 when `ok` holds. -/
def scoreOpt (expected actual : Option JVal) : Nat :=
  (if okOpt expected actual then 1 else 0) *
    (if truthyOpt expected && truthyOpt actual then 2 else 0)

/-- `FilterableRequest#for(uri)`: exact uri equality and invokability
(`for` is a reserved word in Lean, hence `forUri`). -/
def FilterableRequest.forUri (r : Request) (uri : String) : Bool :=
  r.uri? == some uri && r.isInvokable

/-- `FilterableRequest#pass(options)`: the `reduce` over
`["headers", "params", "body"]` unrolled; the per-field guard
`!options[key]` is JavaScript truthiness on the incoming side. -/
def FilterableRequest.pass (r : Request) (opts : RequestOptions) : Bool :=
  (!truthyOpt opts.headers || okOpt opts.headers r.headers) &&
  ((!truthyOpt opts.params || okOpt opts.params r.params) &&
   (!truthyOpt opts.body || okOpt opts.body r.body))

/-- `FilterableRequest#score(options)`: the summing `reduce` unrolled; note
the argument order `score(this.request[key], options[key])`. -/
def FilterableRequest.score (r : Request) (opts : RequestOptions) : Nat :=
  scoreOpt r.headers opts.headers + scoreOpt r.params opts.params +
    scoreOpt r.body opts.body

/-- `FilterableRequest#eq(options)`: deep equality on all three fields. -/
def FilterableRequest.eq (r : Request) (opts : RequestOptions) : Bool :=
  eqOpt r.headers opts.headers && eqOpt r.params opts.params &&
    eqOpt r.body opts.body

/-- `this.filterable.filter((r) => r.for(uri))` with the position of each
surviving definition in the verb's list made explicit (the source works with
object references; positions model that identity). -/
def candidatesFrom (uri : String) : Nat → List Request → List (Nat × Request)
  | _, [] => []
  | i, r :: rs =>
      if FilterableRequest.forUri r uri then
        (i, r) :: candidatesFrom uri (i + 1) rs
      else
        candidatesFrom uri (i + 1) rs

/-- One insertion step of a stable descending sort by score: an element is
placed before the first element it does not score strictly below. -/
def insertByScoreDesc (opts : RequestOptions) (x : Nat × Request) :
    List (Nat × Request) → List (Nat × Request)
  | [] => [x]
  | y :: ys =>
      if FilterableRequest.score y.2 opts ≤ FilterableRequest.score x.2 opts then
        x :: y :: ys
      else
        y :: insertByScoreDesc opts x ys

/-- `sort((a, b) => b.score(options) - a.score(options))`: JavaScript's sort
is stable, so this is a stable descending sort by score. -/
def sortByScoreDesc (opts : RequestOptions) :
    List (Nat × Request) → List (Nat × Request)
  | [] => []
  | x :: xs => insertByScoreDesc opts x (sortByScoreDesc opts xs)

/-- `RequestMatcher#matchFor(uri, options)`: filter the verb's definitions by
uri and invokability; in `"partial"` mode keep those that `pass`, sort by
descending score and take the head; in strict mode take the first that is
deep-equal on all three fields.  Returns the selected definition with its
position. -/
def RequestMatcher.matchFor (requests : List Request) (mode : MatchMode)
    (uri : String) (opts : RequestOptions) : Option (Nat × Request) :=
  let candidates := candidatesFrom uri 0 requests
  match mode with
  | .loose =>
      (sortByScoreDesc opts
        (candidates.filter (fun p => FilterableRequest.pass p.2 opts))).head?
  | .strict => candidates.find? (fun p => FilterableRequest.eq p.2 opts)

/-- The registry: one ordered sequence of definitions per verb. -/
def Registry : Type := Method → List Request

/-- `Object.values(this.registry).flat()` in the constructor's key order. -/
def allRequests (reg : Registry) : List Request :=
  methodKeys.flatMap reg

/-- The invalid-definition collection loop at the top of `HttpMock#adapter`. -/
def invalidOf (reg : Registry) : List Request :=
  (allRequests reg).filter (fun r => !r.isValid)

/-- Point update of the registry at one verb. -/
def updateRegistry (reg : Registry) (m : Method) (l : List Request) : Registry :=
  fun m2 => if m2 = m then l else reg m2

/-- `HttpMock#reset()`: every verb key is kept and mapped to the empty
sequence. -/
def HttpMock.reset (_reg : Registry) : Registry :=
  fun _ => []

/-- `HttpMock#on(method)`: create a definition and append it to the verb's
sequence. -/
def HttpMock.on (reg : Registry) (m : Method) : Registry × Request :=
  let r : Request := { method := m }
  (updateRegistry reg m (reg m ++ [r]), r)

/-- The adapter body from `http-mock.ts`: validate the whole registry, match
within the dispatched verb, then materialize the selected definition (whose
incremented copy replaces it in the registry).  Status interpretation
(`settle`'s `validateStatus`) is the external boundary and not part of the
engine. -/
def HttpMock.dispatch (reg : Registry) (mode : MatchMode) (method : Method)
    (uri : String) (opts : RequestOptions) : Except MockError Response × Registry :=
  let invalid := invalidOf reg
  if invalid.length > 0 then
    (Except.error (MockError.invalidRequests invalid), reg)
  else
    match RequestMatcher.matchFor (reg method) mode uri opts with
    | none => (Except.error MockError.requestNotFound, reg)
    | some (i, r) =>
        let step := r.materialize
        (step.1, updateRegistry reg method ((reg method).set i step.2))


/-! ## Shared lemmas about the embedded operations -/

theorem find?_eq_some_first {α : Type} {p : α → Bool} :
    ∀ {l : List α} {a : α}, l.find? p = some a →
      p a = true ∧ ∃ l₁ l₂, l = l₁ ++ a :: l₂ ∧ ∀ b ∈ l₁, p b = false := by
  intro l
  induction l with
  | nil => intro a h; simp [List.find?] at h
  | cons x xs ih =>
    intro a h
    by_cases hx : p x
    · rw [List.find?_cons_of_pos _ hx] at h
      cases h
      exact ⟨hx, [], xs, rfl, by intro b hb; simp at hb⟩
    · rw [List.find?_cons_of_neg _ hx] at h
      obtain ⟨hpa, l₁, l₂, rfl, hfail⟩ := ih h
      refine ⟨hpa, x :: l₁, l₂, rfl, ?_⟩
      intro b hb
      rcases List.mem_cons.mp hb with rfl | hb
      · simpa using hx
      · exact hfail b hb

theorem mem_candidatesFrom {uri : String} :
    ∀ {l : List Request} {n j : Nat} {r : Request},
      ((j, r) ∈ candidatesFrom uri n l) ↔
        ∃ k, j = n + k ∧ l[k]? = some r ∧ FilterableRequest.forUri r uri = true := by
  intro l
  induction l with
  | nil =>
    intro n j r
    simp [candidatesFrom]
  | cons x xs ih =>
    intro n j r
    by_cases hx : FilterableRequest.forUri x uri
    · simp only [candidatesFrom, hx, if_pos, List.mem_cons]
      constructor
      · intro h
        rcases h with heq | hmem
        · obtain ⟨rfl, rfl⟩ := Prod.mk.injEq .. ▸ heq
          injection heq with h1 h2
          exact ⟨0, by omega, by simp [h2 ▸ hx], by rw [h2]; exact hx⟩
        · obtain ⟨k, rfl, hget, hf⟩ := ih.mp hmem
          exact ⟨k + 1, by omega, by simpa using hget, hf⟩
      · rintro ⟨k, rfl, hget, hf⟩
        cases k with
        | zero =>
          left
          simp only [List.getElem?_cons_zero, Option.some.injEq] at hget
          simp [hget]
        | succ k' =>
          right
          refine ih.mpr ⟨k', by omega, by simpa using hget, hf⟩
    · simp only [candidatesFrom, hx, if_neg, Bool.false_eq_true, not_false_iff]
      constructor
      · intro hmem
        obtain ⟨k, rfl, hget, hf⟩ := ih.mp hmem
        exact ⟨k + 1, by omega, by simpa using hget, hf⟩
      · rintro ⟨k, rfl, hget, hf⟩
        cases k with
        | zero =>
          simp only [List.getElem?_cons_zero, Option.some.injEq] at hget
          exact absurd (hget ▸ hf) (by simp [hx])
        | succ k' =>
          exact ih.mpr ⟨k', by omega, by simpa using hget, hf⟩

theorem le_fst_of_mem_candidatesFrom {uri : String} {l : List Request} {n : Nat}
    {c : Nat × Request} (h : c ∈ candidatesFrom uri n l) : n ≤ c.1 := by
  obtain ⟨j, r⟩ := c
  obtain ⟨k, rfl, -, -⟩ := mem_candidatesFrom.mp h
  omega

theorem pairwise_candidatesFrom {uri : String} :
    ∀ {l : List Request} {n : Nat},
      (candidatesFrom uri n l).Pairwise (fun a b => a.1 < b.1) := by
  intro l
  induction l with
  | nil => intro n; simp [candidatesFrom]
  | cons x xs ih =>
    intro n
    by_cases hx : FilterableRequest.forUri x uri
    · simp only [candidatesFrom, hx, if_pos]
      refine List.pairwise_cons.mpr ⟨?_, ih⟩
      intro b hb
      have := le_fst_of_mem_candidatesFrom hb
      omega
    · simp only [candidatesFrom, hx]
      exact ih

theorem length_insertByScoreDesc (opts : RequestOptions) (x : Nat × Request) :
    ∀ s : List (Nat × Request), (insertByScoreDesc opts x s).length = s.length + 1 := by
  intro s
  induction s with
  | nil => rfl
  | cons y ys ih =>
    by_cases hc :
        FilterableRequest.score y.2 opts ≤ FilterableRequest.score x.2 opts
    · simp [insertByScoreDesc, hc]
    · simp [insertByScoreDesc, hc, ih]

theorem length_sortByScoreDesc (opts : RequestOptions) :
    ∀ l : List (Nat × Request), (sortByScoreDesc opts l).length = l.length := by
  intro l
  induction l with
  | nil => rfl
  | cons x xs ih =>
    simp [sortByScoreDesc, length_insertByScoreDesc, ih]

theorem sortByScoreDesc_head {opts : RequestOptions} :
    ∀ {l : List (Nat × Request)} {h : Nat × Request},
      (sortByScoreDesc opts l).head? = some h →
      h ∈ l ∧
      (∀ b ∈ l, FilterableRequest.score b.2 opts ≤ FilterableRequest.score h.2 opts) ∧
      ∃ l₁ l₂, l = l₁ ++ h :: l₂ ∧
        ∀ b ∈ l₁, FilterableRequest.score b.2 opts < FilterableRequest.score h.2 opts := by
  intro l
  induction l with
  | nil => intro h hh; simp [sortByScoreDesc] at hh
  | cons x xs ih =>
    intro h hh
    rw [sortByScoreDesc] at hh
    cases e : sortByScoreDesc opts xs with
    | nil =>
      have hxs : xs = [] := by
        have := length_sortByScoreDesc opts xs
        rw [e] at this
        exact List.length_eq_zero.mp this.symm
      subst hxs
      rw [e] at hh
      simp only [insertByScoreDesc, List.head?_cons, Option.some.injEq] at hh
      subst hh
      exact ⟨List.mem_singleton.mpr rfl, by simp, [], [], rfl, by simp⟩
    | cons y ys =>
      rw [e] at hh
      have ihy := ih (by rw [e]; rfl)
      obtain ⟨hymem, hymax, l₁, l₂, hdecomp, hstrict⟩ := ihy
      by_cases hc :
          FilterableRequest.score y.2 opts ≤ FilterableRequest.score x.2 opts
      · rw [insertByScoreDesc, if_pos hc] at hh
        simp only [List.head?_cons, Option.some.injEq] at hh
        subst hh
        refine ⟨List.mem_cons_self _ _, ?_, [], xs, rfl, by simp⟩
        intro b hb
        rcases List.mem_cons.mp hb with rfl | hb
        · exact le_refl _
        · exact le_trans (hymax b hb) hc
      · rw [insertByScoreDesc, if_neg hc] at hh
        simp only [List.head?_cons, Option.some.injEq] at hh
        subst hh
        push_neg at hc
        refine ⟨List.mem_cons_of_mem _ hymem, ?_, x :: l₁, l₂,
          by rw [hdecomp]; rfl, ?_⟩
        · intro b hb
          rcases List.mem_cons.mp hb with rfl | hb
          · exact le_of_lt hc
          · exact hymax b hb
        · intro b hb
          rcases List.mem_cons.mp hb with rfl | hb
          · exact hc
          · exact hstrict b hb

theorem materialize_snd (r : Request) :
    (r.materialize).2 = { r with invocationCount := r.invocationCount + 1 } := by
  cases hx : r.exception <;> cases hr : r.response? <;>
    simp [Request.materialize, hx, hr]

theorem materialize_fst_of_exception {r : Request} {msg : String}
    (h : r.exception = some msg) :
    (r.materialize).1 = Except.error (MockError.connectivityFailure msg) := by
  simp [Request.materialize, h]

/-! ## Claim theorems -/

/-- C8 counterexample: a definition with `invocationLimit = 0` is invokable
according to the code (JavaScript `!0` is true), although the limit is not
null and `invocationCount < 0` fails — the claim's formula deems it not
invokable. -/
def c8req : Request :=
  { method := Method.get, invocationCount := 5, maxInvocationCount := some 0 }

/-- C8 is false as stated: at `invocationLimit = 0` the code treats the
definition as unlimited (invokable), while the claimed formula
`invocationLimit == null || invocationCount < invocationLimit` is false. -/
theorem C8_counterexample :
    c8req.isInvokable = true ∧ c8req.maxInvocationCount ≠ none ∧
      ¬(∃ m, c8req.maxInvocationCount = some m ∧ c8req.invocationCount < m) := by
  refine ⟨rfl, by simp [c8req], ?_⟩
  rintro ⟨m, hm, hlt⟩
  simp only [c8req, Option.some.injEq] at hm
  omega

/-- C8 (amended): `isInvokable` holds iff `invocationLimit` is unset or zero
(both JavaScript-falsy, treated as unlimited) or
`invocationCount < invocationLimit`. -/
theorem C8_isInvokable_amended (r : Request) :
    r.isInvokable = true ↔
      (r.maxInvocationCount = none ∨ r.maxInvocationCount = some 0 ∨
        ∃ m, r.maxInvocationCount = some m ∧ r.invocationCount < m) := by
  cases h : r.maxInvocationCount with
  | none => simp [Request.isInvokable, h]
  | some m =>
    simp only [Request.isInvokable, h, Bool.or_eq_true, beq_iff_eq,
      decide_eq_true_eq, Option.some.injEq, reduceCtorEq, false_or]
    constructor
    · rintro (rfl | hlt)
      · exact Or.inl rfl
      · exact Or.inr ⟨m, rfl, hlt⟩
    · rintro (rfl | ⟨m', hm', hlt⟩)
      · exact Or.inl rfl
      · cases hm'
        exact Or.inr hlt

/-- C8 amended-theorem witness: the counterexample definition is invokable
because its limit is zero. -/
theorem C8_witness : c8req.isInvokable = true :=
  (C8_isInvokable_amended c8req).mpr (Or.inr (Or.inl rfl))

/-- C6: a definition whose outcome is a configured failure (a stored
exception) always materializes to the connectivity error carrying the
configured cause, and never to a success-shaped response. -/
theorem C6_failure_outcome (r : Request) (msg : String)
    (h : r.exception = some msg) :
    (r.materialize).1 = Except.error (MockError.connectivityFailure msg) ∧
      ∀ resp : Response, (r.materialize).1 ≠ Except.ok resp := by
  refine ⟨materialize_fst_of_exception h, ?_⟩
  intro resp hok
  rw [materialize_fst_of_exception h] at hok
  exact Except.noConfusion hok

/-- C6 witness: a `timeout()`-configured definition materializes to the
connectivity error with cause "Timeout". -/
def c6req : Request :=
  (({ method := Method.get } : Request).to "/t").timeout

theorem C6_witness :
    (c6req.materialize).1 =
      Except.error (MockError.connectivityFailure "Timeout") :=
  (C6_failure_outcome c6req "Timeout" rfl).1

/-- C7: reset maps every verb key to the empty sequence (the keys themselves
survive, the registry stays defined on every verb), and a dispatch right
after reset yields the no-match error for any call, in particular any call
that matched a definition before the reset. -/
theorem C7_reset_clears_and_nomatch (reg : Registry) (mode : MatchMode)
    (method : Method) (uri : String) (opts : RequestOptions) (x : Nat × Request)
    (hprev : RequestMatcher.matchFor (reg method) mode uri opts = some x) :
    (∀ m, HttpMock.reset reg m = []) ∧
      HttpMock.dispatch (HttpMock.reset reg) mode method uri opts =
        (Except.error MockError.requestNotFound, HttpMock.reset reg) := by
  refine ⟨fun m => rfl, ?_⟩
  cases mode <;> rfl

/-- C7 witness: a registry with one matching GET definition; its call matches
before the reset and is dispatched to no-match after. -/
def c7req : Request :=
  (({ method := Method.get } : Request).to "/p").respondWith 200 none

def c7reg : Registry := fun m =>
  match m with
  | Method.get => [c7req]
  | _ => []

theorem C7_witness :
    HttpMock.dispatch (HttpMock.reset c7reg) MatchMode.strict Method.get "/p" {} =
      (Except.error MockError.requestNotFound, HttpMock.reset c7reg) :=
  (C7_reset_clears_and_nomatch c7reg MatchMode.strict Method.get "/p" {}
    (0, c7req) rfl).2

/-- C5: a `once()` definition (limit 1) is invokable — hence a candidate —
while unused; after a materialization it is excluded from candidacy; each
materialization increments `invocationCount` by exactly one; and no operation
of the definition's interface decreases `invocationCount`. -/
theorem C5_once_invocation_bookkeeping :
    (∀ r : Request, (r.once).maxInvocationCount = some 1) ∧
    (∀ (r : Request) (uri : String) (l : List Request) (n k : Nat),
      r.maxInvocationCount = some 1 → r.invocationCount = 0 →
      r.uri? = some uri → l[k]? = some r →
      r.isInvokable = true ∧ (n + k, r) ∈ candidatesFrom uri n l) ∧
    (∀ r : Request, r.maxInvocationCount = some 1 →
      (r.materialize).2.isInvokable = false ∧
      ∀ (uri : String) (l : List Request) (n j : Nat),
        (j, (r.materialize).2) ∉ candidatesFrom uri n l) ∧
    (∀ r : Request,
      (r.materialize).2.invocationCount = r.invocationCount + 1) ∧
    (∀ r : Request,
      (∀ u, (r.to u).invocationCount = r.invocationCount) ∧
      (∀ o, (r.withOpts o).invocationCount = r.invocationCount) ∧
      (r.once).invocationCount = r.invocationCount ∧
      (r.timeout).invocationCount = r.invocationCount ∧
      (∀ st resp, (r.respondWith st resp).invocationCount = r.invocationCount) ∧
      r.invocationCount ≤ (r.materialize).2.invocationCount) := by
  refine ⟨fun r => rfl, ?_, ?_, ?_, ?_⟩
  · intro r uri l n k hmax hcount huri hget
    have hinv : r.isInvokable = true := by
      simp [Request.isInvokable, hmax, hcount]
    refine ⟨hinv, mem_candidatesFrom.mpr ⟨k, rfl, hget, ?_⟩⟩
    simp [FilterableRequest.forUri, huri, hinv]
  · intro r hmax
    have hni : (r.materialize).2.isInvokable = false := by
      rw [materialize_snd]
      simp [Request.isInvokable, hmax]
    refine ⟨hni, ?_⟩
    intro uri l n j hmem
    obtain ⟨k, -, -, hf⟩ := mem_candidatesFrom.mp hmem
    rw [FilterableRequest.forUri, hni] at hf
    simp at hf
  · intro r
    rw [materialize_snd]
  · intro r
    refine ⟨fun u => rfl, fun o => rfl, rfl, rfl, fun st resp => rfl, ?_⟩
    rw [materialize_snd]
    exact Nat.le_succ _

/-- C5 witness: a fresh `once()` definition with a configured response is a
candidate for its uri, and its count goes 0 to 1 on materialization. -/
def c5req : Request :=
  ((({ method := Method.get } : Request).to "/p").respondWith 200 none).once

theorem C5_witness :
    c5req.isInvokable = true ∧ (0, c5req) ∈ candidatesFrom "/p" 0 [c5req] ∧
      (c5req.materialize).2.isInvokable = false := by
  have h := C5_once_invocation_bookkeeping
  have h1 := h.2.1 c5req "/p" [c5req] 0 0 rfl rfl rfl rfl
  have h2 := h.2.2.1 c5req rfl
  exact ⟨h1.1, h1.2, h2.1⟩

/-- C10: materialization increments the invocation count before the outcome
is decided, so raising materializations (configured failure, or the defensive
unconfigured-outcome path) also consume an invocation; consequently a
`once()` + failure definition is excluded from candidacy after its first,
failing call. -/
theorem C10_raising_materialization_consumes (r : Request) :
    (r.materialize).2.invocationCount = r.invocationCount + 1 ∧
    (r.exception = none → r.response? = none →
      (r.materialize).1 =
        Except.error (MockError.unconfiguredResponse r.method r.uri?)) ∧
    (r.maxInvocationCount = some 1 → ∀ msg, r.exception = some msg →
      (r.materialize).1 = Except.error (MockError.connectivityFailure msg) ∧
      (r.materialize).2.isInvokable = false ∧
      ∀ (uri : String) (l : List Request) (n j : Nat),
        (j, (r.materialize).2) ∉ candidatesFrom uri n l) := by
  refine ⟨by rw [materialize_snd], ?_, ?_⟩
  · intro hx hr
    simp [Request.materialize, hx, hr]
  · intro hmax msg hx
    have hni : (r.materialize).2.isInvokable = false := by
      rw [materialize_snd]
      simp [Request.isInvokable, hmax]
    refine ⟨materialize_fst_of_exception hx, hni, ?_⟩
    intro uri l n j hmem
    obtain ⟨k, -, -, hf⟩ := mem_candidatesFrom.mp hmem
    rw [FilterableRequest.forUri, hni] at hf
    simp at hf

/-- C10 witness: a `once()` + `timeout()` definition fails with the
connectivity error, still consumes its single invocation, and is no longer a
candidate afterwards. -/
def c10req : Request :=
  ((({ method := Method.get } : Request).to "/p").timeout).once

theorem C10_witness :
    (c10req.materialize).2.invocationCount = 1 ∧
      (c10req.materialize).1 =
        Except.error (MockError.connectivityFailure "Timeout") ∧
      (c10req.materialize).2.isInvokable = false := by
  have h := C10_raising_materialization_consumes c10req
  have h3 := h.2.2 rfl "Timeout" rfl
  exact ⟨h.1, h3.1, h3.2.1⟩

theorem isValid_eq_false_of_incomplete {r : Request}
    (h : r.uri? = none ∨ (r.response? = none ∧ r.exception = none)) :
    r.isValid = false := by
  rcases h with h | ⟨h1, h2⟩
  · simp [Request.isValid, h, truthyStr]
  · simp [Request.isValid, h1, h2]

/-- C1: if any definition anywhere in the registry is incomplete (no uri or
no outcome), every dispatch — whatever its verb — fails with the
invalid-definitions error carrying (at least) all incomplete definitions,
and the registry is left untouched: matching is never attempted. -/
theorem C1_invalid_definitions_preflight
    (reg : Registry) (mode : MatchMode) (method : Method) (uri : String)
    (opts : RequestOptions) (d : Request)
    (hmem : d ∈ allRequests reg)
    (hinc : d.uri? = none ∨ (d.response? = none ∧ d.exception = none)) :
    HttpMock.dispatch reg mode method uri opts =
      (Except.error (MockError.invalidRequests (invalidOf reg)), reg) ∧
    ∀ e ∈ allRequests reg,
      (e.uri? = none ∨ (e.response? = none ∧ e.exception = none)) →
        e ∈ invalidOf reg := by
  have hdmem : d ∈ invalidOf reg := by
    refine List.mem_filter.mpr ⟨hmem, ?_⟩
    simp [isValid_eq_false_of_incomplete hinc]
  have hlen : (invalidOf reg).length > 0 :=
    List.length_pos.mpr (List.ne_nil_of_mem hdmem)
  constructor
  · rw [HttpMock.dispatch]
    simp only [hlen, if_pos]
  · intro e he hinc2
    refine List.mem_filter.mpr ⟨he, ?_⟩
    simp [isValid_eq_false_of_incomplete hinc2]

/-- C1 witness: an incomplete POST definition makes a GET dispatch fail with
the invalid-definitions error even though every GET definition is complete. -/
def c1bad : Request := { method := Method.post }

def c1good : Request :=
  (({ method := Method.get } : Request).to "/p").respondWith 200 none

def c1reg : Registry := fun m =>
  match m with
  | Method.get => [c1good]
  | Method.post => [c1bad]
  | _ => []

theorem C1_witness :
    HttpMock.dispatch c1reg MatchMode.strict Method.get "/p" {} =
      (Except.error (MockError.invalidRequests [c1bad]), c1reg) ∧
      c1bad ∈ invalidOf c1reg := by
  have h := C1_invalid_definitions_preflight c1reg MatchMode.strict Method.get
    "/p" {} c1bad (by decide) (Or.inl rfl)
  have hinv : invalidOf c1reg = [c1bad] := by decide
  exact ⟨by rw [h.1, hinv], h.2 c1bad (by decide) (Or.inl rfl)⟩

theorem fieldPass_iff (inc defv : Option JVal) :
    (!truthyOpt inc || okOpt inc defv) = true ↔
      (truthyOpt inc = false ∨ truthyOpt defv = false ∨
        eqOpt inc defv = true) := by
  cases h1 : truthyOpt inc <;> cases h2 : truthyOpt defv <;>
    simp [okOpt, h1, h2]

/-- C3 counterexample: a candidate configuring a present but JavaScript-falsy
body (the number 0) against an incoming call with a present object body:
both sides are present and not deep-equal (under the spec's structural
equality, and even under the code's loose equality), yet the candidate
passes, because the source's guards `!options[key]` and
`!expected || !actual` test truthiness, not presence. -/
def c3cxr : Request :=
  (({ method := Method.get } : Request).to "/p").withOpts
    { body := some (JVal.scalar (JScalar.n 0)) }

def c3cxopts : RequestOptions :=
  { body := some (JVal.obj [("a", JScalar.n 1)]) }

/-- C3 is false as stated: the candidate passes although its body and the
incoming body are both present and not deep-equal. -/
theorem C3_counterexample :
    FilterableRequest.pass c3cxr c3cxopts = true ∧
      c3cxopts.body.isSome = true ∧ c3cxr.body.isSome = true ∧
      structEqOpt c3cxopts.body c3cxr.body = false ∧
      eqOpt c3cxopts.body c3cxr.body = false := by
  exact ⟨by decide, by decide, by decide, by decide, by decide⟩

/-- C3 (amended): in partial mode a uri-filtered candidate passes iff, for
each of headers, params and body independently, at least one side lacks the
field or holds a JavaScript-falsy value (the code's guards treat falsy like
absent), or both sides are present and truthy and loosely deep-equal; in
particular a definition configuring params with keys a and b never passes
for an incoming call supplying only key a, or keys a and c — whatever the
values (no subset matching). -/
theorem C3_partial_pass_no_subsets :
    (∀ (r : Request) (opts : RequestOptions),
      FilterableRequest.pass r opts = true ↔
        ((truthyOpt opts.headers = false ∨ truthyOpt r.headers = false ∨
            eqOpt opts.headers r.headers = true) ∧
         (truthyOpt opts.params = false ∨ truthyOpt r.params = false ∨
            eqOpt opts.params r.params = true) ∧
         (truthyOpt opts.body = false ∨ truthyOpt r.body = false ∨
            eqOpt opts.body r.body = true))) ∧
    (∀ (r : Request) (opts : RequestOptions) (va vb va' : JScalar),
      r.params = some (JVal.obj [("a", va), ("b", vb)]) →
      opts.params = some (JVal.obj [("a", va')]) →
      FilterableRequest.pass r opts = false) ∧
    (∀ (r : Request) (opts : RequestOptions) (va vb va' vc : JScalar),
      r.params = some (JVal.obj [("a", va), ("b", vb)]) →
      opts.params = some (JVal.obj [("a", va'), ("c", vc)]) →
      FilterableRequest.pass r opts = false) := by
  have hchar : ∀ (r : Request) (opts : RequestOptions),
      FilterableRequest.pass r opts = true ↔
        ((!truthyOpt opts.headers || okOpt opts.headers r.headers) = true ∧
         (!truthyOpt opts.params || okOpt opts.params r.params) = true ∧
         (!truthyOpt opts.body || okOpt opts.body r.body) = true) := by
    intro r opts
    simp [FilterableRequest.pass]
  refine ⟨?_, ?_, ?_⟩
  · intro r opts
    rw [hchar]
    rw [fieldPass_iff, fieldPass_iff, fieldPass_iff]
  · intro r opts va vb va' hr ho
    apply Bool.eq_false_iff.mpr
    intro hp
    have hfield := ((hchar r opts).mp hp).2.1
    rw [fieldPass_iff, hr, ho] at hfield
    rcases hfield with h | h | h
    · simp [truthyOpt, JVal.truthy] at h
    · simp [truthyOpt, JVal.truthy] at h
    · simp [eqOpt, JVal.deepEqual] at h
  · intro r opts va vb va' vc hr ho
    apply Bool.eq_false_iff.mpr
    intro hp
    have hfield := ((hchar r opts).mp hp).2.1
    rw [fieldPass_iff, hr, ho] at hfield
    rcases hfield with h | h | h
    · simp [truthyOpt, JVal.truthy] at h
    · simp [truthyOpt, JVal.truthy] at h
    · simp [eqOpt, JVal.deepEqual] at h

/-- C3 witness: a concrete candidate with params on keys a and b fails the
pass filter against an incoming call with params on key a only. -/
def c3req : Request :=
  (({ method := Method.get } : Request).to "/p").withOpts
    { params := some (JVal.obj [("a", JScalar.n 1), ("b", JScalar.n 2)]) }

theorem C3_witness :
    FilterableRequest.pass c3req
      { params := some (JVal.obj [("a", JScalar.n 1)]) } = false :=
  C3_partial_pass_no_subsets.2.1 c3req
    { params := some (JVal.obj [("a", JScalar.n 1)]) }
    (JScalar.n 1) (JScalar.n 2) (JScalar.n 1) rfl rfl

theorem invalidOf_eq_nil_of_valid {reg : Registry}
    (h : ∀ r ∈ allRequests reg, r.isValid = true) : invalidOf reg = [] := by
  rw [invalidOf, List.filter_eq_nil_iff]
  intro a ha
  simp [h a ha]

theorem mem_left_of_lt_head {l l₁ l₂ : List (Nat × Request)}
    {h c : Nat × Request} (hdecomp : l = l₁ ++ h :: l₂)
    (hpw : l.Pairwise (fun a b => a.1 < b.1)) (hc : c ∈ l) (hlt : c.1 < h.1) :
    c ∈ l₁ := by
  subst hdecomp
  rcases List.mem_append.mp hc with h1 | h2
  · exact h1
  · rcases List.mem_cons.mp h2 with rfl | h3
    · omega
    · have hp2 := (List.pairwise_append.mp hpw).2.1
      have := (List.pairwise_cons.mp hp2).1 c h3
      omega

/-- The strict-mode matching condition as the code implements it: exact uri
equality, invokability, and the legacy loose deep equality on each of
headers, params and body (absent on both sides counts as equal). -/
def strictPred (uri : String) (opts : RequestOptions) (s : Request) : Prop :=
  s.uri? = some uri ∧ s.isInvokable = true ∧
  eqOpt s.headers opts.headers = true ∧ eqOpt s.params opts.params = true ∧
  eqOpt s.body opts.body = true

theorem strictPred_iff {uri : String} {opts : RequestOptions} {s : Request} :
    strictPred uri opts s ↔
      (FilterableRequest.forUri s uri && FilterableRequest.eq s opts) = true := by
  rw [strictPred, FilterableRequest.forUri, FilterableRequest.eq]
  simp only [Bool.and_eq_true, beq_iff_eq]
  tauto

/-- C2 counterexample: a strict-mode stub configuring params with the string
value "1" is returned for an incoming call whose params carry the number 1 —
legacy `assert.deepEqual` compares leaves with JavaScript loose equality, so
the matcher selects a definition whose params are not structurally deep-equal
to the incoming call's, refuting the claimed characterization. -/
def c2cxr : Request :=
  ((({ method := Method.get } : Request).to "/p").withOpts
    { params := some (JVal.obj [("q", JScalar.s "1")]) }).respondWith 200 none

def c2cxopts : RequestOptions :=
  { params := some (JVal.obj [("q", JScalar.n 1)]) }

/-- C2 is false as stated: the strict matcher returns a definition whose
params are not (structurally) deep-equal to the incoming call's. -/
theorem C2_counterexample :
    RequestMatcher.matchFor [c2cxr] MatchMode.strict "/p" c2cxopts =
        some (0, c2cxr) ∧
      structEqOpt c2cxr.params c2cxopts.params = false := by
  exact ⟨by decide, by decide⟩

/-- C2 (amended): in strict mode the matcher returns the first definition in
registration order whose uri equals the call's uri exactly, which is
invokable, and whose headers, params and body are each equal to the incoming
call's under the code's legacy loose deep equality (absent on both sides
counts as equal, absent on one side does not match, primitives compare with
JavaScript ==); if no such definition exists, dispatch raises the no-match
error. -/
theorem C2_strict_first_match (reg : Registry) (method : Method) (uri : String)
    (opts : RequestOptions)
    (hvalid : ∀ r ∈ allRequests reg, r.isValid = true) :
    (∀ i r,
      RequestMatcher.matchFor (reg method) MatchMode.strict uri opts =
          some (i, r) →
        (reg method)[i]? = some r ∧ strictPred uri opts r ∧
        ∀ (j : Nat) (s : Request), j < i → (reg method)[j]? = some s →
          ¬ strictPred uri opts s) ∧
    (RequestMatcher.matchFor (reg method) MatchMode.strict uri opts = none →
      (∀ (j : Nat) (s : Request), (reg method)[j]? = some s →
        ¬ strictPred uri opts s) ∧
      HttpMock.dispatch reg MatchMode.strict method uri opts =
        (Except.error MockError.requestNotFound, reg)) := by
  have hm : RequestMatcher.matchFor (reg method) MatchMode.strict uri opts =
      (candidatesFrom uri 0 (reg method)).find?
        (fun p => FilterableRequest.eq p.2 opts) := rfl
  constructor
  · intro i r h
    rw [hm] at h
    obtain ⟨heq, l₁, l₂, hdec, hfail⟩ := find?_eq_some_first h
    have hmemc : (i, r) ∈ candidatesFrom uri 0 (reg method) := by
      rw [hdec]
      exact List.mem_append.mpr (Or.inr (List.mem_cons_self _ _))
    obtain ⟨k, hik, hget, hforUri⟩ := mem_candidatesFrom.mp hmemc
    have hki : k = i := by omega
    subst hki
    refine ⟨hget, strictPred_iff.mpr (by simp [hforUri, heq]), ?_⟩
    intro j s hj hget2 hP
    have hps := strictPred_iff.mp hP
    have hforUris : FilterableRequest.forUri s uri = true :=
      (Bool.and_eq_true .. ▸ hps).1
    have heqs : FilterableRequest.eq s opts = true :=
      (Bool.and_eq_true .. ▸ hps).2
    have hmems : (j, s) ∈ candidatesFrom uri 0 (reg method) :=
      mem_candidatesFrom.mpr ⟨j, by omega, hget2, hforUris⟩
    have hin1 : (j, s) ∈ l₁ :=
      mem_left_of_lt_head hdec pairwise_candidatesFrom hmems (by simpa using hj)
    have := hfail (j, s) hin1
    simp only at this
    rw [heqs] at this
    exact Bool.noConfusion this
  · intro h
    rw [hm] at h
    have hnone := List.find?_eq_none.mp h
    have hnom : ∀ (j : Nat) (s : Request), (reg method)[j]? = some s →
        ¬ strictPred uri opts s := by
      intro j s hget hP
      have hps := strictPred_iff.mp hP
      have hforUris : FilterableRequest.forUri s uri = true :=
        (Bool.and_eq_true .. ▸ hps).1
      have heqs : FilterableRequest.eq s opts = true :=
        (Bool.and_eq_true .. ▸ hps).2
      have hmems : (j, s) ∈ candidatesFrom uri 0 (reg method) :=
        mem_candidatesFrom.mpr ⟨j, by omega, hget, hforUris⟩
      exact hnone (j, s) hmems (by simpa using heqs)
    refine ⟨hnom, ?_⟩
    have hinv : invalidOf reg = [] := invalidOf_eq_nil_of_valid hvalid
    rw [HttpMock.dispatch]
    simp only [hinv, List.length_nil, gt_iff_lt, Nat.lt_irrefl, if_false, hm, h]

/-- C2 witness: with one non-matching and one fully matching GET definition,
the strict matcher selects the later, matching one at position 1. -/
def c2r1 : Request :=
  ((({ method := Method.get } : Request).to "/p").withOpts
    { headers := some (JVal.obj [("X", JScalar.s "1")]) }).respondWith 200 none

def c2r2 : Request :=
  (({ method := Method.get } : Request).to "/p").respondWith 201 none

def c2reg : Registry := fun m =>
  match m with
  | Method.get => [c2r1, c2r2]
  | _ => []

theorem C2_witness :
    (c2reg Method.get)[1]? = some c2r2 ∧ strictPred "/p" {} c2r2 := by
  have h := (C2_strict_first_match c2reg Method.get "/p" {} (by decide)).1 1 c2r2
    (by decide)
  exact ⟨h.1, h.2.1⟩

theorem scoreOpt_eq (e a : Option JVal) :
    scoreOpt e a = 2 * (truthyOpt e && truthyOpt a && eqOpt e a).toNat := by
  cases h1 : truthyOpt e with
  | false => simp [scoreOpt, okOpt, h1]
  | true =>
    cases h2 : truthyOpt a with
    | false => simp [scoreOpt, okOpt, h1, h2]
    | true =>
      cases h3 : eqOpt e a <;> simp [scoreOpt, okOpt, h1, h2, h3]

/-- C4 counterexample: a candidate and an incoming call both carrying the
body 0 — present and deep-equal (structurally and loosely) — score 0 in the
code, because the source's multiplier guard `if (expected && actual)` tests
truthiness, while the claim's formula demands 2. -/
def c4cxr : Request :=
  (({ method := Method.get } : Request).to "/p").withOpts
    { body := some (JVal.scalar (JScalar.n 0)) }

def c4cxopts : RequestOptions :=
  { body := some (JVal.scalar (JScalar.n 0)) }

/-- C4 is false as stated: the specificity score is 0 at an input where the
claimed formula (2 per both-present deep-equal field) yields 2. -/
theorem C4_counterexample :
    FilterableRequest.score c4cxr c4cxopts = 0 ∧
      2 * ((c4cxr.headers.isSome && c4cxopts.headers.isSome &&
              structEqOpt c4cxr.headers c4cxopts.headers).toNat +
           (c4cxr.params.isSome && c4cxopts.params.isSome &&
              structEqOpt c4cxr.params c4cxopts.params).toNat +
           (c4cxr.body.isSome && c4cxopts.body.isSome &&
              structEqOpt c4cxr.body c4cxopts.body).toNat) = 2 := by
  exact ⟨by decide, by decide⟩

/-- C4 (amended): in partial mode each candidate's specificity score is twice
the number of fields (headers, params, body) on which the definition's
configured value and the incoming value are both present and truthy and
loosely deep-equal; the returned definition is a passing candidate of
maximal score, and among equal scores the earlier-registered definition
wins. -/
theorem C4_partial_score_and_selection :
    (∀ (r : Request) (opts : RequestOptions),
      FilterableRequest.score r opts =
        2 * ((truthyOpt r.headers && truthyOpt opts.headers &&
                eqOpt r.headers opts.headers).toNat +
             (truthyOpt r.params && truthyOpt opts.params &&
                eqOpt r.params opts.params).toNat +
             (truthyOpt r.body && truthyOpt opts.body &&
                eqOpt r.body opts.body).toNat)) ∧
    (∀ (l : List Request) (uri : String) (opts : RequestOptions) (i : Nat)
        (r : Request),
      RequestMatcher.matchFor l MatchMode.loose uri opts = some (i, r) →
        l[i]? = some r ∧ FilterableRequest.forUri r uri = true ∧
        FilterableRequest.pass r opts = true ∧
        ∀ (j : Nat) (s : Request), l[j]? = some s →
          FilterableRequest.forUri s uri = true →
          FilterableRequest.pass s opts = true →
          FilterableRequest.score s opts ≤ FilterableRequest.score r opts ∧
          (j < i →
            FilterableRequest.score s opts < FilterableRequest.score r opts)) := by
  constructor
  · intro r opts
    rw [FilterableRequest.score, scoreOpt_eq, scoreOpt_eq, scoreOpt_eq]
    ring
  · intro l uri opts i r h
    have hm : RequestMatcher.matchFor l MatchMode.loose uri opts =
        (sortByScoreDesc opts
          ((candidatesFrom uri 0 l).filter
            (fun p => FilterableRequest.pass p.2 opts))).head? := rfl
    rw [hm] at h
    obtain ⟨hmem, hmax, L₁, L₂, hdec, hstrict⟩ := sortByScoreDesc_head h
    have hpassing := List.mem_filter.mp hmem
    have hpass : FilterableRequest.pass r opts = true := by
      simpa using hpassing.2
    obtain ⟨k, hik, hget, hforUri⟩ := mem_candidatesFrom.mp hpassing.1
    have hki : k = i := by omega
    subst hki
    refine ⟨hget, hforUri, hpass, ?_⟩
    intro j s hget2 hforUris hpasss
    have hmems : (j, s) ∈
        (candidatesFrom uri 0 l).filter
          (fun p => FilterableRequest.pass p.2 opts) :=
      List.mem_filter.mpr
        ⟨mem_candidatesFrom.mpr ⟨j, by omega, hget2, hforUris⟩, by simpa using hpasss⟩
    refine ⟨hmax (j, s) hmems, ?_⟩
    intro hj
    have hpw : ((candidatesFrom uri 0 l).filter
        (fun p => FilterableRequest.pass p.2 opts)).Pairwise
          (fun a b => a.1 < b.1) :=
      pairwise_candidatesFrom.sublist (List.filter_sublist _)
    have hin1 : (j, s) ∈ L₁ :=
      mem_left_of_lt_head hdec hpw hmems (by simpa using hj)
    exact hstrict (j, s) hin1

/-- C4 witness: the more specific of two passing GET definitions (matching
params versus no attributes) wins although registered later. -/
def c4r1 : Request :=
  (({ method := Method.get } : Request).to "/path").respondWith 200 none

def c4r2 : Request :=
  ((({ method := Method.get } : Request).to "/path").withOpts
    { params := some (JVal.obj [("q", JScalar.s "v")]) }).respondWith 201 none

def c4opts : RequestOptions :=
  { params := some (JVal.obj [("q", JScalar.s "v")]) }

theorem C4_witness :
    ([c4r1, c4r2] : List Request)[1]? = some c4r2 ∧
      FilterableRequest.score c4r1 c4opts <
        FilterableRequest.score c4r2 c4opts := by
  have h := C4_partial_score_and_selection.2 [c4r1, c4r2] "/path" c4opts 1 c4r2
    (by decide)
  have h2 := (h.2.2.2 0 c4r1 (by decide) (by decide) (by decide)).2 (by omega)
  exact ⟨h.1, h2⟩

theorem materialize_fst_ne_invalid (r : Request) (lst : List Request) :
    (r.materialize).1 ≠ Except.error (MockError.invalidRequests lst) := by
  cases hx : r.exception <;> cases hr : r.response? <;>
    simp [Request.materialize, hx, hr]

theorem materialize_fst_ne_notFound (r : Request) :
    (r.materialize).1 ≠ Except.error MockError.requestNotFound := by
  cases hx : r.exception <;> cases hr : r.response? <;>
    simp [Request.materialize, hx, hr]

/-- C9: a dispatch that fails with the invalid-definitions or no-match error
returns the registry unchanged (no invocation count moves); any other
dispatch changes at most the selected definition, and there only by the
one-step invocation-count increment. -/
theorem C9_mutation_discipline (reg : Registry) (mode : MatchMode)
    (method : Method) (uri : String) (opts : RequestOptions) :
    ((∃ lst, (HttpMock.dispatch reg mode method uri opts).1 =
        Except.error (MockError.invalidRequests lst)) →
      (HttpMock.dispatch reg mode method uri opts).2 = reg) ∧
    ((HttpMock.dispatch reg mode method uri opts).1 =
        Except.error MockError.requestNotFound →
      (HttpMock.dispatch reg mode method uri opts).2 = reg) ∧
    (∀ m, m ≠ method →
      (HttpMock.dispatch reg mode method uri opts).2 m = reg m) ∧
    (∀ (i : Nat) (r : Request),
      RequestMatcher.matchFor (reg method) mode uri opts = some (i, r) →
      invalidOf reg = [] →
      (HttpMock.dispatch reg mode method uri opts).2 method =
        (reg method).set i
          ({ r with invocationCount := r.invocationCount + 1 }) ∧
      ∀ (j : Nat), j ≠ i →
        ((HttpMock.dispatch reg mode method uri opts).2 method)[j]? =
          (reg method)[j]?) := by
  by_cases hlen : (invalidOf reg).length > 0
  · have hd : HttpMock.dispatch reg mode method uri opts =
        (Except.error (MockError.invalidRequests (invalidOf reg)), reg) := by
      simp only [HttpMock.dispatch]
      rw [if_pos hlen]
    rw [hd]
    refine ⟨fun _ => rfl, fun hc => absurd hc (by simp), fun m _ => rfl, ?_⟩
    intro i r hmf hinv
    rw [hinv] at hlen
    simp at hlen
  · cases hmf : RequestMatcher.matchFor (reg method) mode uri opts with
    | none =>
      have hd : HttpMock.dispatch reg mode method uri opts =
          (Except.error MockError.requestNotFound, reg) := by
        simp only [HttpMock.dispatch]
        rw [if_neg hlen, hmf]
      rw [hd]
      refine ⟨?_, fun _ => rfl, fun m _ => rfl, ?_⟩
      · rintro ⟨lst, hc⟩
        exact absurd hc (by simp)
      · intro i r h hinv
        exact Option.noConfusion h
    | some p =>
      obtain ⟨i, r⟩ := p
      have hd : HttpMock.dispatch reg mode method uri opts =
          ((r.materialize).1,
            updateRegistry reg method
              ((reg method).set i (r.materialize).2)) := by
        simp only [HttpMock.dispatch]
        rw [if_neg hlen, hmf]
      rw [hd]
      refine ⟨?_, ?_, ?_, ?_⟩
      · rintro ⟨lst, hc⟩
        exact absurd hc (materialize_fst_ne_invalid r lst)
      · intro hc
        exact absurd hc (materialize_fst_ne_notFound r)
      · intro m hm
        simp [updateRegistry, hm]
      · intro i' r' hmf2 hinv
        have hpair : (i, r) = (i', r') := Option.some.inj hmf2
        cases hpair
        rw [materialize_snd]
        refine ⟨by simp [updateRegistry], ?_⟩
        intro j hj
        simp only [updateRegistry, if_pos rfl]
        exact List.getElem?_set_ne (Ne.symm hj)

/-- C9 witness: the invalid-registry dispatch of the C1 setup leaves the
registry untouched. -/
theorem C9_witness :
    (HttpMock.dispatch c1reg MatchMode.strict Method.get "/p" {}).2 = c1reg :=
  (C9_mutation_discipline c1reg MatchMode.strict Method.get "/p" {}).1
    ⟨[c1bad], rfl⟩
